import Mathlib

/-!
Verification of the resumable bilingual-subtitle pipeline
(`bilingual_subtitle_generator.py`).

Python strings are modelled as `List Char` (`Str`); Python `int` values that
are provably non-negative in the modelled code paths are modelled as `Nat`,
others as `Int`.  Each definition is a direct transcription of the Python
function of the same name; helper functions model the Python string
primitives (`str.strip`, `str.split`, `str.replace`, `str.ljust`,
`' '.join`, `int(...)`, f-string formatting) that those functions use.
-/

namespace BSG

/-- A Python `str`, modelled as its sequence of characters. -/
abbrev Str := List Char

/-- Python whitespace as used by `str.strip()` and the regex class `\s`
(restricted to the ASCII whitespace characters; the inputs handled by this
program contain no other whitespace). -/
def isPySpace (c : Char) : Bool :=
  c = ' ' || c = '\t' || c = '\n' || c = '\r' || c = '\x0b' || c = '\x0c'

/-- Python `str.strip()`: drop whitespace from both ends. -/
def pyStrip (s : Str) : Str :=
  ((s.dropWhile isPySpace).reverse.dropWhile isPySpace).reverse

/-- Python `sep.join`-style split: `s.split(c)` for a one-character
separator.  Always returns a non-empty list; `''.split(c) == ['']`. -/
def splitChar (c : Char) : Str → List Str
  | [] => [[]]
  | x :: xs =>
    let r := splitChar c xs
    if x = c then [] :: r
    else (x :: r.headD []) :: r.tail

/-- Python `' '.join(xs)`. -/
def pyJoinSpace (xs : List Str) : Str :=
  List.intercalate [' '] xs

/-- The character for a decimal digit value `d < 10`. -/
def digitChar (d : Nat) : Char :=
  Char.ofNat (48 + d)

/-- Decimal rendering of a positive `Nat`, most significant digit first
(fuel-driven so that it reduces definitionally; `natToStr` supplies
enough fuel).  Returns `[]` for `0`. -/
def natToStrAux : Nat → Nat → Str
  | 0, _ => []
  | fuel + 1, n => if n = 0 then [] else natToStrAux fuel (n / 10) ++ [digitChar (n % 10)]

/-- Python `str(n)` for a non-negative int `n`. -/
def natToStr (n : Nat) : Str :=
  if n = 0 then ['0'] else natToStrAux (n + 1) n

/-- Python `str(i)` for an int `i`. -/
def intToStr (i : Int) : Str :=
  if i < 0 then '-' :: natToStr i.natAbs else natToStr i.toNat

/-- Python `int(s)` on a string of decimal digits (the only shape the
modelled code paths ever pass: components of rendered or regex-matched
timestamps).  On other strings Python raises `ValueError`; such strings
never reach the call sites modelled with this function. -/
def pyIntNat (s : Str) : Nat :=
  s.foldl (fun a c => 10 * a + (c.toNat - 48)) 0

/-- Python `int(s)` with `ValueError` modelled as `none`: optional sign
after stripping whitespace, then at least one digit. -/
def pyIntOpt (s : Str) : Option Int :=
  let t := pyStrip s
  match t with
  | '-' :: ds => if ds ≠ [] ∧ ds.all Char.isDigit then some (-(pyIntNat ds : Int)) else none
  | '+' :: ds => if ds ≠ [] ∧ ds.all Char.isDigit then some (pyIntNat ds) else none
  | ds => if ds ≠ [] ∧ ds.all Char.isDigit then some (pyIntNat ds) else none

/-- Python `s.ljust(3, '0')[:3]`. -/
def ljust3take3 (s : Str) : Str :=
  (s ++ List.replicate (3 - s.length) '0').take 3

/-- The seconds-part handling of `timestamp_to_ms`:
`s_parts = s.split('.'); seconds = int(s_parts[0]); millis =
int(s_parts[1].ljust(3,'0')[:3]) if len(s_parts) > 1 else 0`, combined
as `seconds * 1000 + millis` (split always returns a non-empty list, so
`s_parts[0]` exists). -/
def parseSecondsMs (s : Str) : Nat :=
  match splitChar '.' s with
  | s0 :: rest =>
    pyIntNat s0 * 1000 +
      (match rest with
       | s1 :: _ => pyIntNat (ljust3take3 s1)
       | [] => 0)
  | [] => 0

/-- Python `timestamp_to_ms`: convert an SRT timestamp `HH:MM:SS,mmm` to
milliseconds.  Transcribed from the Python source: replace `,` by `.`,
split on `:`; with exactly three parts combine hours, minutes and the
seconds/millis part; otherwise return `0`. -/
def timestamp_to_ms (ts : Str) : Nat :=
  match splitChar ':' (ts.map (fun c => if c = ',' then '.' else c)) with
  | [h, m, s] => pyIntNat h * 3600000 + pyIntNat m * 60000 + parseSecondsMs s
  | _ => 0

/-- Python `f"{n:02d}"`: zero-pad to width 2. -/
def pad2 (n : Nat) : Str :=
  List.replicate (2 - (natToStr n).length) '0' ++ natToStr n

/-- Python `f"{n:03d}"`: zero-pad to width 3. -/
def pad3 (n : Nat) : Str :=
  List.replicate (3 - (natToStr n).length) '0' ++ natToStr n

/-- Python `ms_to_timestamp`: render milliseconds as `HH:MM:SS,mmm`.
Transcribed from the Python source. -/
def ms_to_timestamp (ms : Nat) : Str :=
  let h := ms / 3600000
  let ms1 := ms % 3600000
  let m := ms1 / 60000
  let ms2 := ms1 % 60000
  let s := ms2 / 1000
  let millis := ms2 % 1000
  pad2 h ++ ':' :: pad2 m ++ ':' :: pad2 s ++ ',' :: pad3 millis

/-- Python `split_timing`: split a time range into `num_parts` proportional
segments.  Transcribed from the Python source.  Python computes
`duration = end_ms - start_ms` as an `int` and tests `duration <= 0`,
which is equivalent to `end_ms ≤ start_ms`; inside the else branch the
duration is positive, so `Nat` subtraction agrees with Python. -/
def split_timing (start_ts end_ts : Str) (num_parts : Nat) : List (Str × Str) :=
  let start_ms := timestamp_to_ms start_ts
  let end_ms := timestamp_to_ms end_ts
  if num_parts ≤ 1 ∨ end_ms ≤ start_ms then [(start_ts, end_ts)]
  else
    let duration := end_ms - start_ms
    let segment_duration := duration / num_parts
    (List.range num_parts).map (fun i =>
      let seg_start := start_ms + i * segment_duration
      let seg_end := if i < num_parts - 1 then start_ms + (i + 1) * segment_duration else end_ms
      (ms_to_timestamp seg_start, ms_to_timestamp seg_end))

/-- A parsed subtitle record, as produced by `parse_srt_blocks`
(a Python dict with keys `index`, `start`, `end`, `text`).  The Python
key `end` is a Lean keyword, hence the field name `end'`. -/
structure Block where
  index : Int
  start : Str
  end' : Str
  text : Str
deriving DecidableEq, Repr

/-- The value of the `en`/`cn` field of a translated item: either a plain
string or an array of segment strings (the two JSON shapes the prompt
asks for and `merge_translations_with_timing` distinguishes with
`isinstance(..., list)`). -/
inductive StrOrList where
  | s (v : Str)
  | l (v : List Str)
deriving DecidableEq, Repr

/-- One translated item as decoded from the service's JSON: the `id`,
`en` and `cn` keys, each possibly absent (`dict.get`). -/
structure TransItem where
  id : Option Int := none
  en : Option StrOrList := none
  cn : Option StrOrList := none
deriving DecidableEq, Repr

/-- The `index` field of a merged entry: the original int id for unsplit
entries, or the f-string `f"{block_id}.{i+1}"` for split entries. -/
inductive PyIdx where
  | int (i : Int)
  | str (s : Str)
deriving DecidableEq, Repr

/-- One entry of the merged output (a Python dict); `split_from` is the
optional `split_from` key, present only on split entries. -/
structure MergedEntry where
  index : PyIdx
  start : Str
  end' : Str
  en : Str
  cn : Str
  original : Str
  split_from : Option Int := none
deriving DecidableEq, Repr

/-- The dict `trans_by_id` built by `merge_translations_with_timing`:
items whose `id` is `None` are not inserted, and a later item with the
same id overwrites an earlier one, so lookup returns the last item whose
id matches. -/
def transById (items : List TransItem) (i : Int) : Option TransItem :=
  (items.filter (fun it => it.id = some i)).getLast?

/-- Python `str(x)` on an `en`/`cn` value that is a list of strings
(`repr` of a list).  Faithful for segment strings containing no quote,
backslash or control characters; no modelled code path reaches this
function with other strings. -/
def pyListRepr (xs : List Str) : Str :=
  '[' :: List.intercalate [',', ' '] (xs.map (fun s => '\'' :: s ++ ['\''])) ++ [']']

/-- The expression `en_data.strip() if isinstance(en_data, str) else str(en_data)`. -/
def stripOrRepr : StrOrList → Str
  | .s v => pyStrip v
  | .l v => pyListRepr v

/-- The body of the `for block in original_blocks` loop of
`merge_translations_with_timing`: the entries appended for one block.
Transcribed from the Python source. -/
def mergeOne (items : List TransItem) (block : Block) : List MergedEntry :=
  let trans := transById items block.index
  let en_data : StrOrList := (trans.bind TransItem.en).getD (.s block.text)
  let cn_data : StrOrList := (trans.bind TransItem.cn).getD (.s [])
  match en_data, cn_data with
  | .l en_list, .l cn_list =>
    let num_parts := en_list.length
    if cn_list.length ≠ num_parts then
      [{ index := .int block.index, start := block.start, end' := block.end',
         en := pyJoinSpace en_list, cn := pyJoinSpace cn_list,
         original := block.text }]
    else
      let time_segments := split_timing block.start block.end' num_parts
      time_segments.enum.map (fun p =>
        { index := .str (intToStr block.index ++ '.' :: natToStr (p.1 + 1)),
          start := p.2.1, end' := p.2.2,
          en := if h : p.1 < en_list.length then pyStrip (en_list.get ⟨p.1, h⟩) else [],
          cn := if h : p.1 < cn_list.length then pyStrip (cn_list.get ⟨p.1, h⟩) else [],
          original := block.text,
          split_from := some block.index })
  | _, _ =>
    [{ index := .int block.index, start := block.start, end' := block.end',
       en := stripOrRepr en_data, cn := stripOrRepr cn_data,
       original := block.text }]

/-- Python `merge_translations_with_timing`: merge translated items back with the
original timing.  The Python loop appends `mergeOne` entries for each
block in order. -/
def merge_translations_with_timing (original_blocks : List Block)
    (translated_items : List TransItem) : List MergedEntry :=
  original_blocks.flatMap (mergeOne translated_items)

/-! ### The SRT parser (`parse_srt_blocks`)

The timing regex
`(\d{1,2}:\d{2}:\d{2}[,\.]\d{1,3})\s*-->\s*(\d{1,2}:\d{2}:\d{2}[,\.]\d{1,3})`
is applied with `re.match` (anchored at the start of the line, no end
anchor).  The functions below are its compiled, deterministic form: each
greedy quantifier is followed by a character it cannot itself match
(`\d{1,2}` by `:`, `\d{1,3}` by `\s*-->`, `\s*` by `-`), so regex
backtracking never changes the outcome and the match can be computed
left-to-right without search; the only genuine case split (`\d{1,2}`)
is spelled out. -/

/-- Match `\d{1,2}:` at the start, returning the digits and the rest. -/
def matchHourColon : Str → Option (Str × Str)
  | a :: b :: rest =>
    if a.isDigit then
      if b.isDigit then
        match rest with
        | c :: rest2 => if c = ':' then some ([a, b], rest2) else none
        | [] => none
      else if b = ':' then some ([a], rest)
      else none
    else none
  | _ => none

/-- Match exactly two digits at the start. -/
def matchTwoDigits : Str → Option (Str × Str)
  | a :: b :: rest => if a.isDigit ∧ b.isDigit then some ([a, b], rest) else none
  | _ => none

/-- Match `[,\.]` at the start. -/
def matchSepChar : Str → Option (Char × Str)
  | c :: rest => if c = ',' ∨ c = '.' then some (c, rest) else none
  | _ => none

/-- Match `\d{1,3}` when it is followed by `\s*-->` in the pattern:
because a shorter greedy take still leaves a digit (matching neither
`\s` nor `-`), a run of more than three digits makes the whole pattern
fail. -/
def matchFracMid (s : Str) : Option (Str × Str) :=
  let ds := s.takeWhile Char.isDigit
  if 1 ≤ ds.length ∧ ds.length ≤ 3 then some (ds, s.drop ds.length) else none

/-- Match `\d{1,3}` at the end of the pattern: the greedy take of up to
three digits always succeeds when at least one digit is present
(`re.match` does not anchor the end of the string). -/
def matchFracEnd (s : Str) : Option (Str × Str) :=
  let ds := (s.takeWhile Char.isDigit).take 3
  if 1 ≤ ds.length then some (ds, s.drop ds.length) else none

/-- Match one timestamp group `\d{1,2}:\d{2}:\d{2}[,\.]\d{1,3}`;
`last` tells whether this is the final group of the pattern.  Returns
the matched group text and the rest of the line. -/
def matchTsGroup (last : Bool) (s : Str) : Option (Str × Str) :=
  (matchHourColon s).bind (fun hh =>
    (matchTwoDigits hh.2).bind (fun mm =>
      match mm.2 with
      | c :: rest =>
        if c = ':' then
          (matchTwoDigits rest).bind (fun ss =>
            (matchSepChar ss.2).bind (fun sep =>
              ((if last then matchFracEnd else matchFracMid) sep.2).map (fun fr =>
                (hh.1 ++ ':' :: mm.1 ++ ':' :: ss.1 ++ sep.1 :: fr.1, fr.2))))
        else none
      | [] => none))

/-- Match `\s*-->\s*`. -/
def matchArrow (s : Str) : Option Str :=
  match s.dropWhile isPySpace with
  | a :: b :: c :: rest =>
    if a = '-' ∧ b = '-' ∧ c = '>' then some (rest.dropWhile isPySpace) else none
  | _ => none

/-- Python `timing_pattern.match(line)`: the two captured timestamp groups, or
`none` when the line does not start with a timing match. -/
def matchTimingLine (s : Str) : Option (Str × Str) :=
  (matchTsGroup false s).bind (fun g1 =>
    (matchArrow g1.2).bind (fun rest =>
      (matchTsGroup true rest).map (fun g2 => (g1.1, g2.1))))

/-- Index of the last `'\n'` of a string, if any. -/
def lastNewlineIdx (s : Str) : Option Nat :=
  (s.reverse.findIdx? (· = '\n')).map (fun j => s.length - 1 - j)

/-- Python `re.split(r'\n\s*\n', content)`: a separator match starts at a `\n`,
greedily swallows following whitespace, and must end at a `\n` — i.e. it
runs from a newline to the last newline of the maximal whitespace run
that follows it.  `acc` is the current block, reversed; `fuel` (at least
the length of the remaining input) keeps the recursion structural. -/
def splitBlocksAux : Nat → Str → Str → List Str
  | 0, acc, s => [acc.reverse ++ s]
  | fuel + 1, acc, s =>
    match s with
    | [] => [acc.reverse]
    | c :: rest =>
      if c = '\n' then
        let ws := rest.takeWhile isPySpace
        match lastNewlineIdx ws with
        | some p => acc.reverse :: splitBlocksAux fuel [] (rest.drop (p + 1))
        | none => splitBlocksAux fuel ('\n' :: acc) rest
      else splitBlocksAux fuel (c :: acc) rest

/-- Python `re.split(r'\n\s*\n', content)`. -/
def splitBlocks (content : Str) : List Str :=
  splitBlocksAux content.length [] content

/-- Find the first line (by index) on which the timing pattern matches,
returning its index and the two groups. -/
def findTimingLine : List Str → Nat → Option (Nat × Str × Str)
  | [], _ => none
  | l :: rest, i =>
    match matchTimingLine l with
    | some g => some (i, g.1, g.2)
    | none => findTimingLine rest (i + 1)

/-- The per-raw-block body of the `for raw in raw_blocks` loop of
`parse_srt_blocks`; `n` is `len(blocks)`, the number of records already
produced.  Transcribed from the Python source. -/
def processRawBlocks : List Str → Nat → List Block
  | [], _ => []
  | raw :: rest, n =>
    let lines := ((splitChar '\n' (pyStrip raw)).map pyStrip).filter (· ≠ [])
    if lines.length < 2 then processRawBlocks rest n
    else
      match findTimingLine lines 0 with
      | none => processRawBlocks rest n
      | some (idx, g1, g2) =>
        let start_time := g1.map (fun c => if c = '.' then ',' else c)
        let end_time := g2.map (fun c => if c = '.' then ',' else c)
        let text := pyJoinSpace (lines.drop (idx + 1))
        let index : Int :=
          if idx > 0 then (pyIntOpt (lines.getD (idx - 1) [])).getD ((n : Int) + 1)
          else (n : Int) + 1
        { index := index, start := start_time, end' := end_time, text := text }
          :: processRawBlocks rest (n + 1)

/-- Python `parse_srt_blocks` on the file's content: split into raw blocks on
blank lines and parse each block. -/
def parse_srt_blocks (content : Str) : List Block :=
  processRawBlocks (splitBlocks (pyStrip content)) 0

/-! ### The call wrapper (`process_chunk`) and the orchestrator (`main`)

The remote service is an opaque external collaborator, modelled as an
oracle mapping a model name and a zero-based attempt number to the
outcome of `json.loads(response.text)` followed by
`result.get('subtitles', result)` for that remote call.  Any exception
inside the `try` block (network error, JSON decode error, `.get` on a
non-dict) is `ApiResp.exn rl`, where `rl` records whether
`_is_rate_limit_error` holds for it; a decoded value that is not a list
is `ApiResp.notList`; a decoded list is `ApiResp.subs`. -/

/-- Outcome of one remote attempt, seen after JSON decoding. -/
inductive ApiResp where
  | exn (rateLimit : Bool)
  | notList
  | subs (items : List TransItem)
deriving DecidableEq, Repr

/-- Constant `BACKOFF_SCHEDULE` (seconds, up to 5 retries). -/
def BACKOFF_SCHEDULE : List Nat := [5, 15, 45, 90, 180]

/-- Constant `RATE_LIMIT_COOLDOWN` (seconds). -/
def RATE_LIMIT_COOLDOWN : Nat := 60

/-- Constant `DEFAULT_MODEL`. -/
def DEFAULT_MODEL : Str := (r"gemini-2.5-flash").toList

/-- Constant `FALLBACK_MODEL`. -/
def FALLBACK_MODEL : Str := (r"gemini-3-flash-preview").toList

/-- What one `process_chunk` call did: its return value, how many remote
attempts it made, and the sleeps it performed between attempts. -/
structure PCOut where
  result : Option (List TransItem)
  calls : Nat
  sleeps : List Nat
deriving DecidableEq, Repr

/-- The sleep performed after a failed attempt when further attempts
remain: the schedule's wait, raised to `RATE_LIMIT_COOLDOWN` when the
last exception was a rate-limit error (`last_error` is `some rl` iff an
exception has been recorded). -/
def retrySleep (remaining : List (Nat × Nat)) (last_error : Option Bool) (wait : Nat) : List Nat :=
  if remaining = [] then []
  else [if last_error = some true then max wait RATE_LIMIT_COOLDOWN else wait]

/-- The `for attempt, wait in enumerate(BACKOFF_SCHEDULE)` loop of
`process_chunk`.  A decoded list of the wrong length, a non-list value
and an exception are all failures that fall through to the retry sleep;
only an exception updates `last_error`. -/
def process_chunkAux (expected : Nat) (oracle : Nat → ApiResp) :
    List (Nat × Nat) → Option Bool → Nat → PCOut
  | [], _, calls => ⟨none, calls, []⟩
  | (attempt, wait) :: rest, last_error, calls =>
    let retry := fun (le : Option Bool) =>
      let out := process_chunkAux expected oracle rest le (calls + 1)
      ⟨out.result, out.calls, retrySleep rest le wait ++ out.sleeps⟩
    match oracle attempt with
    | .subs data =>
      if data.length ≠ expected then retry last_error
      else ⟨some data, calls + 1, []⟩
    | .notList => retry last_error
    | .exn rl => retry (some rl)

/-- Python `process_chunk`: call the service for one chunk with exponential
backoff; `expected_count = len(chunk_blocks)` and the only validation is
the `len(data) != expected_count` check.  The oracle is keyed by the
model name, since the model is part of the remote request. -/
def process_chunk (oracle : Str → Nat → ApiResp) (chunk_blocks : List Block)
    (model_name : Str) : PCOut :=
  process_chunkAux chunk_blocks.length (oracle model_name) BACKOFF_SCHEDULE.enum none 0

/-- What the orchestrator did for one not-yet-completed chunk (`main`,
the `process_chunk` call and the model-fallback retry): the final
result, the primary call's outcome, and the fallback call's outcome when
one was made. -/
structure FallbackOut where
  result : Option (List TransItem)
  primary : PCOut
  fallback : Option PCOut
deriving DecidableEq, Repr

/-- Lines 894–899 of `main`: call `process_chunk` under the configured
model; if it returned `None` and the configured model is not already
`FALLBACK_MODEL`, call `process_chunk` once more under
`FALLBACK_MODEL`. -/
def chunkWithFallback (oracle : Str → Nat → ApiResp) (chunk_blocks : List Block)
    (model_name : Str) : FallbackOut :=
  let r1 := process_chunk oracle chunk_blocks model_name
  if r1.result = none ∧ model_name ≠ FALLBACK_MODEL then
    let r2 := process_chunk oracle chunk_blocks FALLBACK_MODEL
    ⟨r2.result, r1, some r2⟩
  else ⟨r1.result, r1, none⟩

/-! ### Checkpoint resume (`main`, lines 840–883) -/

/-- The tuple returned by `load_checkpoint`: completed chunk indices (a
Python set, modelled as a list up to membership), accumulated items,
stored total chunk count, optional cached keywords, optional stored
chunk size. -/
structure LoadedCheckpoint where
  completed : List Nat
  translated : List TransItem
  saved_total : Nat
  cached_keywords : Option Str
  saved_chunk_size : Option Nat
deriving Repr

/-- Lines 842–879 of `main`, from the loaded checkpoint to the state the
chunk loop starts from.  `extracted` is the keyword string that the
remote extraction (and optional validation) would produce — it is only
consulted when no cached keywords exist, exactly as in the source —
and `manual_kw` is `parse_manual_keywords(args.keywords)`.
Returns (completed chunks, accumulated items, `video_keywords`). -/
def resumeState (loaded : LoadedCheckpoint) (chunk_size total_chunks : Nat)
    (extracted : Str) (manual_kw : Str) : List Nat × List TransItem × Str :=
  -- if chunk size changed from checkpoint, reset chunk progress (keywords preserved)
  let st0 :=
    if loaded.saved_chunk_size.isSome ∧ loaded.saved_chunk_size ≠ some chunk_size
    then ([], []) else (loaded.completed, loaded.translated)
  -- Phase 0: use cached keywords when present, else the extraction result
  let video_keywords := loaded.cached_keywords.getD extracted
  -- merge manual keywords if provided (empty string is falsy)
  let video_keywords :=
    if manual_kw ≠ [] then
      if video_keywords ≠ [] then video_keywords ++ '\n' :: manual_kw else manual_kw
    else video_keywords
  -- if chunk count changed (0 is falsy), reset chunk progress
  let st1 :=
    if loaded.saved_total ≠ 0 ∧ loaded.saved_total ≠ total_chunks
    then ([], []) else st0
  (st1.1, st1.2, video_keywords)

/-! ### The chunk loop (`main`, lines 885–936) -/

/-- Constant `CONSECUTIVE_FAIL_LIMIT`. -/
def CONSECUTIVE_FAIL_LIMIT : Nat := 3

/-- Constant `GLOBAL_PAUSE_DURATION` (seconds). -/
def GLOBAL_PAUSE_DURATION : Nat := 120

/-- Constant `MIN_CHUNK_DELAY` (seconds). -/
def MIN_CHUNK_DELAY : Nat := 2

/-- Constant `MAX_CHUNK_DELAY` (seconds). -/
def MAX_CHUNK_DELAY : Nat := 30

/-- Observable pipeline-level waits of the chunk loop:
`time.sleep(GLOBAL_PAUSE_DURATION)` and the adaptive
`time.sleep(current_delay)` between chunks. -/
inductive Ev where
  | globalPause
  | chunkSleep (d : Nat)
deriving DecidableEq, Repr

/-- The loop state threaded through the chunk loop of `main`. -/
structure LoopState where
  completed : List Nat
  translated : List TransItem
  current_delay : Nat
  consecutive_failures : Nat
deriving Repr

/-- Python `set.add`: a Python set, modelled as a membership-faithful list. -/
def addSet (l : List Nat) (x : Nat) : List Nat :=
  if x ∈ l then l else l ++ [x]

/-- One iteration of the chunk loop for chunk index `idx`, with `result`
the value after the primary call, model fallback and optional review
(review never changes success into failure: it returns its input on any
failure).  Python's `if result:` tests truthiness: both `None` and an
empty list count as failure, which `result.getD [] ≠ []` captures.
Returns the updated state and the waits performed, in order.
Transcribed from the Python source. -/
def loopStep (totalChunks idx : Nat) (result : Option (List TransItem))
    (st : LoopState) : LoopState × List Ev :=
  if idx ∈ st.completed then (st, [])
  else
    let step :=
      if result.getD [] ≠ [] then
        -- success: append, mark completed, save checkpoint, reset delay and failures
        ((⟨addSet st.completed idx, st.translated ++ result.getD [],
           MIN_CHUNK_DELAY, 0⟩ : LoopState), ([] : List Ev))
      else
        let cf := st.consecutive_failures + 1
        let delay := min (st.current_delay * 2) MAX_CHUNK_DELAY
        if cf ≥ CONSECUTIVE_FAIL_LIMIT then
          -- global error budget exhausted: long pause, then reset both
          ((⟨st.completed, st.translated, MIN_CHUNK_DELAY, 0⟩ : LoopState),
            [Ev.globalPause])
        else
          ((⟨st.completed, st.translated, delay, cf⟩ : LoopState), ([] : List Ev))
    let st1 := step.1
    -- adaptive delay between chunks
    let evs2 :=
      if idx < totalChunks - 1 ∧ (idx + 1) ∉ st1.completed
      then [Ev.chunkSleep st1.current_delay] else []
    (st1, step.2 ++ evs2)

/-- The whole chunk loop over the given chunk indices; `outcomes idx` is
the per-chunk result (after fallback and review). -/
def runLoop (totalChunks : Nat) (outcomes : Nat → Option (List TransItem)) :
    List Nat → LoopState → LoopState × List Ev
  | [], st => (st, [])
  | idx :: rest, st =>
    let s1 := loopStep totalChunks idx (outcomes idx) st
    let s2 := runLoop totalChunks outcomes rest s1.1
    (s2.1, s1.2 ++ s2.2)

/-! ### Decimal rendering / parsing lemmas -/

theorem digitChar_toNat : ∀ d, d < 10 → (digitChar d).toNat = 48 + d := by
  decide

theorem digitChar_isDigit : ∀ d, d < 10 → (digitChar d).isDigit = true := by
  decide

theorem pyIntNat_append_digit (s : Str) (c : Char) :
    pyIntNat (s ++ [c]) = 10 * pyIntNat s + (c.toNat - 48) := by
  simp [pyIntNat, List.foldl_append]

theorem pyIntNat_natToStrAux (fuel : Nat) :
    ∀ n a, n ≤ fuel →
      List.foldl (fun a c => 10 * a + (c.toNat - 48)) a (natToStrAux fuel n) =
        a * 10 ^ (natToStrAux fuel n).length + n := by
  induction fuel with
  | zero => intro n a hn; interval_cases n; simp [natToStrAux]
  | succ fuel ih =>
    intro n a hn
    by_cases h0 : n = 0
    · simp [natToStrAux, h0]
    · have hdiv : n / 10 ≤ fuel := by omega
      have hmod : n % 10 < 10 := Nat.mod_lt _ (by omega)
      simp only [natToStrAux, if_neg h0, List.foldl_append, List.length_append,
        List.foldl_cons, List.foldl_nil, List.length_cons, List.length_nil]
      rw [ih (n / 10) a hdiv, digitChar_toNat _ hmod]
      have : 48 + n % 10 - 48 = n % 10 := by omega
      rw [this, pow_succ]
      have := Nat.div_add_mod n 10
      ring_nf
      omega

theorem pyIntNat_natToStr (n : Nat) : pyIntNat (natToStr n) = n := by
  by_cases h0 : n = 0
  · simp [natToStr, h0, pyIntNat]
  · unfold natToStr pyIntNat
    rw [if_neg h0, pyIntNat_natToStrAux (n + 1) n 0 (by omega)]
    simp

theorem natToStrAux_mem_isDigit (fuel : Nat) :
    ∀ n c, c ∈ natToStrAux fuel n → c.isDigit = true := by
  induction fuel with
  | zero => intro n c hc; simp [natToStrAux] at hc
  | succ fuel ih =>
    intro n c hc
    by_cases h0 : n = 0
    · simp [natToStrAux, h0] at hc
    · simp only [natToStrAux, if_neg h0, List.mem_append, List.mem_singleton] at hc
      rcases hc with hc | hc
      · exact ih _ _ hc
      · subst hc; exact digitChar_isDigit _ (Nat.mod_lt _ (by omega))

theorem natToStr_mem_isDigit (n : Nat) (c : Char) (hc : c ∈ natToStr n) :
    c.isDigit = true := by
  by_cases h0 : n = 0
  · simp [natToStr, h0] at hc; subst hc; decide
  · exact natToStrAux_mem_isDigit _ _ _ (by simpa [natToStr, h0] using hc)

theorem pad2_mem_isDigit (n : Nat) (c : Char) (hc : c ∈ pad2 n) : c.isDigit = true := by
  simp only [pad2, List.mem_append, List.mem_replicate] at hc
  rcases hc with hc | hc
  · rw [hc.2]; decide
  · exact natToStr_mem_isDigit n c hc

theorem pad3_mem_isDigit (n : Nat) (c : Char) (hc : c ∈ pad3 n) : c.isDigit = true := by
  simp only [pad3, List.mem_append, List.mem_replicate] at hc
  rcases hc with hc | hc
  · rw [hc.2]; decide
  · exact natToStr_mem_isDigit n c hc

theorem pyIntNat_replicate_zero (k : Nat) (s : Str) :
    pyIntNat (List.replicate k '0' ++ s) = pyIntNat s := by
  induction k with
  | zero => simp
  | succ k ih => simpa [pyIntNat, List.replicate_succ] using ih

theorem pyIntNat_pad2 (n : Nat) : pyIntNat (pad2 n) = n := by
  rw [pad2, pyIntNat_replicate_zero, pyIntNat_natToStr]

theorem pyIntNat_pad3 (n : Nat) : pyIntNat (pad3 n) = n := by
  rw [pad3, pyIntNat_replicate_zero, pyIntNat_natToStr]

theorem natToStrAux_length_le (fuel : Nat) :
    ∀ k n, n ≤ fuel → n < 10 ^ k → (natToStrAux fuel n).length ≤ k := by
  induction fuel with
  | zero => intro k n hn _; interval_cases n; simp [natToStrAux]
  | succ fuel ih =>
    intro k n hn hk
    by_cases h0 : n = 0
    · simp [natToStrAux, h0]
    · have hkpos : k ≠ 0 := by
        rintro rfl; simp at hk; omega
      simp only [natToStrAux, if_neg h0, List.length_append, List.length_cons,
        List.length_nil]
      have hdivlt : n / 10 < 10 ^ (k - 1) := by
        rw [Nat.div_lt_iff_lt_mul (by omega)]
        calc n < 10 ^ k := hk
        _ = 10 ^ (k - 1) * 10 := by
              rw [← pow_succ]; congr 1; omega
      have := ih (k - 1) (n / 10) (by omega) hdivlt
      omega

theorem natToStr_length_le (k : Nat) (n : Nat) (hk : 1 ≤ k) (hn : n < 10 ^ k) :
    (natToStr n).length ≤ k := by
  by_cases h0 : n = 0
  · simp [natToStr, h0]; omega
  · rw [natToStr, if_neg h0]
    exact natToStrAux_length_le _ _ _ (by omega) hn

theorem natToStr_ne_nil (n : Nat) : natToStr n ≠ [] := by
  by_cases h0 : n = 0
  · simp [natToStr, h0]
  · rw [natToStr, if_neg h0]
    cases hn : natToStrAux (n + 1) n with
    | nil =>
      exfalso
      have := pyIntNat_natToStrAux (n + 1) n 0 (by omega)
      rw [hn] at this
      simp [List.foldl_nil] at this
      omega
    | cons a l => simp

theorem pad3_length (n : Nat) (hn : n < 1000) : (pad3 n).length = 3 := by
  have h1 : (natToStr n).length ≤ 3 := natToStr_length_le 3 n (by omega) (by omega)
  have h2 : (natToStr n).length ≥ 1 :=
    List.length_pos.mpr (natToStr_ne_nil n)
  simp only [pad3, List.length_append, List.length_replicate]
  omega

theorem ljust3take3_of_length (s : Str) (h : s.length = 3) : ljust3take3 s = s := by
  simp [ljust3take3, h]

/-! ### `splitChar` lemmas -/

theorem splitChar_ne_nil (c : Char) (s : Str) : splitChar c s ≠ [] := by
  cases s with
  | nil => simp [splitChar]
  | cons x xs =>
    simp only [splitChar]
    by_cases h : x = c <;> simp [h]

theorem splitChar_of_not_mem (c : Char) (s : Str) (h : ∀ x ∈ s, x ≠ c) :
    splitChar c s = [s] := by
  induction s with
  | nil => simp [splitChar]
  | cons x xs ih =>
    have hx : x ≠ c := h x (by simp)
    have ihs : splitChar c xs = [xs] := ih (fun y hy => h y (by simp [hy]))
    simp [splitChar, hx, ihs]

theorem splitChar_append (c : Char) (a b : Str) (h : ∀ x ∈ a, x ≠ c) :
    splitChar c (a ++ c :: b) = a :: splitChar c b := by
  induction a with
  | nil => simp [splitChar]
  | cons x xs ih =>
    have hx : x ≠ c := h x (by simp)
    have ihs := ih (fun y hy => h y (by simp [hy]))
    simp only [List.cons_append, splitChar, hx, if_neg, ihs]
    have hne := splitChar_ne_nil c b
    simp [ihs]

/-! ### C10: the timestamp round trip -/

theorem isDigit_ne_comma (c : Char) (h : c.isDigit = true) : c ≠ ',' := by
  rintro rfl; simp [Char.isDigit] at h

theorem isDigit_ne_colon (c : Char) (h : c.isDigit = true) : c ≠ ':' := by
  rintro rfl; simp [Char.isDigit] at h

theorem isDigit_ne_dot (c : Char) (h : c.isDigit = true) : c ≠ '.' := by
  rintro rfl; simp [Char.isDigit] at h

theorem map_commaFix_digits (s : Str) (h : ∀ c ∈ s, c.isDigit = true) :
    s.map (fun c => if c = ',' then '.' else c) = s := by
  induction s with
  | nil => rfl
  | cons x xs ih =>
    have hx : x ≠ ',' := isDigit_ne_comma x (h x (by simp))
    simp only [List.map_cons, if_neg hx, List.cons.injEq, true_and]
    exact ih (fun c hc => h c (by simp [hc]))

/-- Parsing a rendered timestamp recovers its components exactly.
The index-like shared core of the round trip. -/
theorem timestamp_to_ms_pads (h m s mil : Nat) (hmil : mil < 1000) :
    timestamp_to_ms (pad2 h ++ ':' :: pad2 m ++ ':' :: pad2 s ++ ',' :: pad3 mil) =
      h * 3600000 + m * 60000 + s * 1000 + mil := by
  have e : pad2 h ++ ':' :: pad2 m ++ ':' :: pad2 s ++ ',' :: pad3 mil
      = pad2 h ++ ':' :: (pad2 m ++ ':' :: (pad2 s ++ ',' :: pad3 mil)) := by
    simp [List.append_assoc]
  rw [e]
  have hmap : (pad2 h ++ ':' :: (pad2 m ++ ':' :: (pad2 s ++ ',' :: pad3 mil))).map
      (fun c => if c = ',' then '.' else c) =
      pad2 h ++ ':' :: (pad2 m ++ ':' :: (pad2 s ++ '.' :: pad3 mil)) := by
    have hco : ((fun c => if c = ',' then '.' else c) ':') = ':' := by decide
    have hcm : ((fun c => if c = ',' then '.' else c) ',') = '.' := by decide
    simp only [List.map_append, List.map_cons, hco, hcm]
    rw [map_commaFix_digits _ (pad2_mem_isDigit h),
      map_commaFix_digits _ (pad2_mem_isDigit m),
      map_commaFix_digits _ (pad2_mem_isDigit s),
      map_commaFix_digits _ (pad3_mem_isDigit mil)]
    simp
  have hsplit : splitChar ':'
      (pad2 h ++ ':' :: (pad2 m ++ ':' :: (pad2 s ++ '.' :: pad3 mil)))
      = [pad2 h, pad2 m, pad2 s ++ '.' :: pad3 mil] := by
    rw [splitChar_append ':' _ _
      (fun x hx => isDigit_ne_colon x (pad2_mem_isDigit h x hx))]
    rw [splitChar_append ':' _ _
      (fun x hx => isDigit_ne_colon x (pad2_mem_isDigit m x hx))]
    rw [splitChar_of_not_mem ':' _ ?_]
    intro x hx
    simp only [List.mem_append, List.mem_cons] at hx
    rcases hx with hx | hx | hx
    · exact isDigit_ne_colon x (pad2_mem_isDigit s x hx)
    · subst hx; decide
    · exact isDigit_ne_colon x (pad3_mem_isDigit mil x hx)
  have hsplit2 : splitChar '.' (pad2 s ++ '.' :: pad3 mil) = [pad2 s, pad3 mil] := by
    rw [splitChar_append '.' _ _
      (fun x hx => isDigit_ne_dot x (pad2_mem_isDigit s x hx))]
    rw [splitChar_of_not_mem '.' _
      (fun x hx => isDigit_ne_dot x (pad3_mem_isDigit mil x hx))]
  have hsm : parseSecondsMs (pad2 s ++ '.' :: pad3 mil) = s * 1000 + mil := by
    unfold parseSecondsMs
    rw [hsplit2]
    show pyIntNat (pad2 s) * 1000 + pyIntNat (ljust3take3 (pad3 mil)) = s * 1000 + mil
    rw [ljust3take3_of_length _ (pad3_length mil hmil), pyIntNat_pad2, pyIntNat_pad3]
  unfold timestamp_to_ms
  rw [hmap, hsplit]
  show pyIntNat (pad2 h) * 3600000 + pyIntNat (pad2 m) * 60000 +
      parseSecondsMs (pad2 s ++ '.' :: pad3 mil) =
    h * 3600000 + m * 60000 + s * 1000 + mil
  rw [hsm, pyIntNat_pad2, pyIntNat_pad2]
  ring

/-- The round trip for an arbitrary millisecond count, stated on the
definitions; shared by several claims. -/
theorem roundtrip_ms (ms : Nat) : timestamp_to_ms (ms_to_timestamp ms) = ms := by
  unfold ms_to_timestamp
  rw [timestamp_to_ms_pads _ _ _ _ (by omega)]
  omega

/-- C10: for every non-negative number of milliseconds `ms`,
`timestamp_to_ms (ms_to_timestamp ms) = ms` — rendering then parsing a
timestamp is an exact round trip over the integers, with no precision
loss. -/
theorem C10_timestamp_roundtrip (ms : Nat) :
    timestamp_to_ms (ms_to_timestamp ms) = ms :=
  roundtrip_ms ms

/-! ### C1: correctness of `split_timing` -/

theorem split_timing_length_pos (t0 t1 : Str) (n : Nat) :
    1 ≤ (split_timing t0 t1 n).length := by
  simp only [split_timing]
  split
  · simp
  · simp only [List.length_map, List.length_range]
    omega

theorem split_timing_getD (t0 t1 : Str) (n i : Nat) (hn : 2 ≤ n)
    (hlt : timestamp_to_ms t0 < timestamp_to_ms t1) (hi : i < n) :
    (split_timing t0 t1 n).getD i ([], []) =
      (ms_to_timestamp (timestamp_to_ms t0 +
         i * ((timestamp_to_ms t1 - timestamp_to_ms t0) / n)),
       ms_to_timestamp (if i < n - 1 then
         timestamp_to_ms t0 + (i + 1) * ((timestamp_to_ms t1 - timestamp_to_ms t0) / n)
         else timestamp_to_ms t1)) := by
  simp only [split_timing]
  rw [if_neg (by omega)]
  rw [List.getD_eq_getElem _ _ (by simp [List.length_map, List.length_range, hi]),
    List.getElem_map, List.getElem_range]

theorem split_timing_length (t0 t1 : Str) (n : Nat) (hn : 2 ≤ n)
    (hlt : timestamp_to_ms t0 < timestamp_to_ms t1) :
    (split_timing t0 t1 n).length = n := by
  simp only [split_timing]
  rw [if_neg (by omega)]
  simp [List.length_map, List.length_range]

/-- The properties C1 asserts of the sub-ranges returned by
`split_timing`, with timestamps compared through `timestamp_to_ms`:
`n` sub-ranges, contiguous, starting at `t0`, last end exactly `t1`,
each range non-degenerate (hence, with contiguity, the ranges are
non-overlapping and cover `[t0, t1)`), and all ranges except possibly
the last of equal duration `(t1 - t0) / n`. -/
def SplitTimingOk (t0 t1 : Str) (n : Nat) : Prop :=
  (split_timing t0 t1 n).length = n ∧
  (∀ i, i + 1 < n →
    timestamp_to_ms (((split_timing t0 t1 n).getD i ([], [])).2) =
      timestamp_to_ms (((split_timing t0 t1 n).getD (i + 1) ([], [])).1)) ∧
  timestamp_to_ms (((split_timing t0 t1 n).getD 0 ([], [])).1) = timestamp_to_ms t0 ∧
  timestamp_to_ms (((split_timing t0 t1 n).getD (n - 1) ([], [])).2) = timestamp_to_ms t1 ∧
  (∀ i, i < n →
    timestamp_to_ms (((split_timing t0 t1 n).getD i ([], [])).1) ≤
      timestamp_to_ms (((split_timing t0 t1 n).getD i ([], [])).2)) ∧
  (∀ i, i + 1 < n →
    timestamp_to_ms (((split_timing t0 t1 n).getD i ([], [])).2) -
      timestamp_to_ms (((split_timing t0 t1 n).getD i ([], [])).1) =
      (timestamp_to_ms t1 - timestamp_to_ms t0) / n)

/-- C1: for every record whose start timestamp is strictly before its end
timestamp and every `n ≥ 2`, `split_timing` returns `n` sub-ranges that
are contiguous, non-overlapping, begin at `t0`, whose last end equals
`t1` exactly regardless of integer-division rounding, and all ranges
except possibly the last have equal duration `(t1 - t0) div n`. -/
theorem C1_split_timing_correct (t0 t1 : Str) (n : Nat)
    (hlt : timestamp_to_ms t0 < timestamp_to_ms t1) (hn : 2 ≤ n) :
    SplitTimingOk t0 t1 n := by
  refine ⟨split_timing_length t0 t1 n hn hlt, ?_, ?_, ?_, ?_, ?_⟩
  · intro i hi
    rw [split_timing_getD t0 t1 n i hn hlt (by omega),
      split_timing_getD t0 t1 n (i + 1) hn hlt (by omega)]
    simp only [if_pos (show i < n - 1 by omega)]
  · rw [split_timing_getD t0 t1 n 0 hn hlt (by omega)]
    simp [roundtrip_ms]
  · rw [split_timing_getD t0 t1 n (n - 1) hn hlt (by omega)]
    simp only [if_neg (show ¬(n - 1 < n - 1) by omega), roundtrip_ms]
  · intro i hi
    rw [split_timing_getD t0 t1 n i hn hlt hi]
    simp only [roundtrip_ms]
    by_cases hlast : i < n - 1
    · rw [if_pos hlast]
      have := Nat.mul_le_mul_right
        ((timestamp_to_ms t1 - timestamp_to_ms t0) / n) (show i ≤ i + 1 by omega)
      omega
    · rw [if_neg hlast]
      have h1 := Nat.mul_le_mul_right
        ((timestamp_to_ms t1 - timestamp_to_ms t0) / n) (show i ≤ n by omega)
      have h2 : n * ((timestamp_to_ms t1 - timestamp_to_ms t0) / n) ≤
          timestamp_to_ms t1 - timestamp_to_ms t0 := by
        rw [Nat.mul_comm]
        exact Nat.div_mul_le_self _ n
      omega
  · intro i hi
    rw [split_timing_getD t0 t1 n i hn hlt (by omega)]
    simp only [if_pos (show i < n - 1 by omega), roundtrip_ms, Nat.succ_mul]
    generalize (timestamp_to_ms t1 - timestamp_to_ms t0) / n = D
    omega

/-- Witness for C1 at `t0 = 00:00:01,000`, `t1 = 00:00:02,000`, `n = 3`. -/
theorem C1_split_timing_correct_witness :
    timestamp_to_ms (r"00:00:01,000").toList < timestamp_to_ms (r"00:00:02,000").toList ∧
    2 ≤ 3 ∧ SplitTimingOk (r"00:00:01,000").toList (r"00:00:02,000").toList 3 :=
  ⟨by decide, by decide,
    C1_split_timing_correct (r"00:00:01,000").toList (r"00:00:02,000").toList 3
      (by decide) (by decide)⟩

/-! ### C2, C5, C6: properties of `merge_translations_with_timing` -/

theorem mergeOne_length_pos (items : List TransItem) (b : Block) :
    1 ≤ (mergeOne items b).length := by
  simp only [mergeOne]
  rcases ((transById items b.index).bind TransItem.en).getD (.s b.text) with v | en_list <;>
    rcases ((transById items b.index).bind TransItem.cn).getD (.s []) with w | cn_list
  · simp
  · simp
  · simp
  · by_cases hlen : cn_list.length ≠ en_list.length
    · simp [hlen]
    · simpa [hlen, List.enum_length] using
        split_timing_length_pos b.start b.end' en_list.length

theorem transById_of_no_match (items : List TransItem) (i : Int)
    (h : ∀ it ∈ items, it.id ≠ some i) : transById items i = none := by
  unfold transById
  rw [List.getLast?_eq_none_iff.mpr]
  rw [List.filter_eq_nil_iff]
  intro it hit
  simp [h it hit]

theorem mergeOne_unmatched (items : List TransItem) (b : Block)
    (h : ∀ it ∈ items, it.id ≠ some b.index) :
    mergeOne items b =
      [{ index := .int b.index, start := b.start, end' := b.end',
         en := pyStrip b.text, cn := [], original := b.text, split_from := none }] := by
  simp only [mergeOne, transById_of_no_match items b.index h, Option.bind,
    Option.getD_none, stripOrRepr]
  rfl

/-- C2: `merge_translations_with_timing` processes the records one by one
(so output entries, grouped by originating record, are in bijection with
the input records), every record yields at least one entry, and a record
with no matching `TranslationUnit` yields exactly one entry carrying the
record's original start, end and (stripped, hence for parsed records
unchanged) source text with empty target text. -/
theorem C2_merge_every_record (blocks : List Block) (items : List TransItem) :
    merge_translations_with_timing blocks items = blocks.flatMap (mergeOne items) ∧
    (∀ b ∈ blocks, 1 ≤ (mergeOne items b).length) ∧
    (∀ b ∈ blocks, (∀ it ∈ items, it.id ≠ some b.index) → pyStrip b.text = b.text →
      mergeOne items b =
        [{ index := .int b.index, start := b.start, end' := b.end',
           en := b.text, cn := [], original := b.text, split_from := none }]) := by
  refine ⟨rfl, fun b _ => mergeOne_length_pos items b, fun b _ hno hstr => ?_⟩
  rw [mergeOne_unmatched items b hno, hstr]

/-- Witness for C2 on one record with no matching item. -/
theorem C2_merge_every_record_witness :
    ((r"hi").toList.length = 2) ∧
    mergeOne []
        { index := 1, start := (r"00:00:01,000").toList, end' := (r"00:00:02,000").toList,
          text := (r"hi").toList } =
      [{ index := .int 1, start := (r"00:00:01,000").toList, end' := (r"00:00:02,000").toList,
         en := (r"hi").toList, cn := [],
         original := (r"hi").toList, split_from := none }] :=
  ⟨by decide,
    (C2_merge_every_record
        [{ index := 1, start := (r"00:00:01,000").toList, end' := (r"00:00:02,000").toList,
           text := (r"hi").toList }] []).2.2
      _ (by decide) (by decide) (by decide)⟩

/-- C6: a matched item whose source-segment array and target-segment
array have different lengths yields exactly one unsplit entry with the
record's original start and end and the space-joined segment arrays as
its texts (the embedding is a total function, so no exception can be
raised on this path). -/
theorem C6_mismatch_one_entry (items : List TransItem) (b : Block) (it : TransItem)
    (es cs : List Str) (hlook : transById items b.index = some it)
    (hen : it.en = some (.l es)) (hcn : it.cn = some (.l cs))
    (hne : es.length ≠ cs.length) :
    mergeOne items b =
      [{ index := .int b.index, start := b.start, end' := b.end',
         en := pyJoinSpace es, cn := pyJoinSpace cs,
         original := b.text, split_from := none }] := by
  simp only [mergeOne, hlook, Option.some_bind, hen, hcn, Option.getD_some]
  rw [if_pos (fun hc => hne hc.symm)]

/-- Witness for C6 with a 2-segment source array and 1-segment target
array. -/
theorem C6_mismatch_one_entry_witness :
    mergeOne
        [{ id := some 3, en := some (.l [['a'], ['b']]), cn := some (.l [['x']]) }]
        { index := 3, start := (r"00:00:01,000").toList, end' := (r"00:00:02,000").toList,
          text := ['t'] } =
      [{ index := .int 3, start := (r"00:00:01,000").toList, end' := (r"00:00:02,000").toList,
         en := ['a', ' ', 'b'], cn := ['x'],
         original := ['t'], split_from := none }] := by
  have := C6_mismatch_one_entry
    [{ id := some 3, en := some (.l [['a'], ['b']]), cn := some (.l [['x']]) }]
    { index := 3, start := (r"00:00:01,000").toList, end' := (r"00:00:02,000").toList,
      text := ['t'] }
    { id := some 3, en := some (.l [['a'], ['b']]), cn := some (.l [['x']]) }
    [['a'], ['b']] [['x']] (by decide) (by decide) (by decide) (by decide)
  rw [this]
  decide

theorem enum_map_fst_apply {α β : Type} (l : List α) (h : Nat → β) :
    l.enum.map (fun p => h p.1) = (List.range l.length).map h := by
  have e : (fun p : Nat × α => h p.1) = h ∘ Prod.fst := rfl
  rw [e, ← List.map_map, List.enum_map_fst]

theorem split_timing_degenerate (t0 t1 : Str) (n : Nat)
    (h : timestamp_to_ms t1 ≤ timestamp_to_ms t0) :
    split_timing t0 t1 n = [(t0, t1)] := by
  simp only [split_timing]
  rw [if_pos (Or.inr h)]

theorem split_timing_le_one (t0 t1 : Str) (n : Nat) (h : n ≤ 1) :
    split_timing t0 t1 n = [(t0, t1)] := by
  simp only [split_timing]
  rw [if_pos (Or.inl h)]

theorem mergeOne_split (items : List TransItem) (b : Block) (it : TransItem)
    (es cs : List Str) (hlook : transById items b.index = some it)
    (hen : it.en = some (.l es)) (hcn : it.cn = some (.l cs))
    (heq : cs.length = es.length) :
    mergeOne items b =
      (split_timing b.start b.end' es.length).enum.map (fun p =>
        { index := .str (intToStr b.index ++ '.' :: natToStr (p.1 + 1)),
          start := p.2.1, end' := p.2.2,
          en := if h : p.1 < es.length then pyStrip (es.get ⟨p.1, h⟩) else [],
          cn := if h : p.1 < cs.length then pyStrip (cs.get ⟨p.1, h⟩) else [],
          original := b.text, split_from := some b.index }) := by
  simp only [mergeOne, hlook, Option.some_bind, hen, hcn, Option.getD_some]
  rw [if_neg (by omega)]

/-- The C5 shape of the split entries' `index` fields: the record id,
a dot, then the one-based part number. -/
def splitIdx (b : Block) (i : Nat) : PyIdx :=
  .str (intToStr b.index ++ '.' :: natToStr (i + 1))

/-- C5 (amended): for a record whose matched item carries equal-length
segment arrays of length `n ≥ 1`, `merge_translations_with_timing`
emits exactly `n` entries with ids suffixed `.1 .. .n` when the record's
duration is positive (or `n = 1`); when `n ≥ 2` and the duration is zero
or negative, `split_timing` collapses to a single range and exactly one
entry, suffixed `.1`, is emitted. -/
theorem C5_split_entry_count (items : List TransItem) (b : Block) (it : TransItem)
    (es cs : List Str) (n : Nat) (hlook : transById items b.index = some it)
    (hen : it.en = some (.l es)) (hcn : it.cn = some (.l cs))
    (hes : es.length = n) (hcs : cs.length = n) (hn : 1 ≤ n) :
    ((timestamp_to_ms b.start < timestamp_to_ms b.end' ∨ n = 1) →
      (mergeOne items b).length = n ∧
      (mergeOne items b).map MergedEntry.index =
        (List.range n).map (splitIdx b)) ∧
    (timestamp_to_ms b.end' ≤ timestamp_to_ms b.start → 2 ≤ n →
      (mergeOne items b).length = 1 ∧
      (mergeOne items b).map MergedEntry.index = [splitIdx b 0]) := by
  subst hes
  rw [mergeOne_split items b it es cs hlook hen hcn hcs]
  constructor
  · intro hcase
    by_cases h1 : es.length = 1
    · rw [split_timing_le_one b.start b.end' es.length (by omega)]
      have hr : List.range es.length = [0] := by rw [h1]; rfl
      rw [hr]
      refine ⟨by simpa using h1.symm, ?_⟩
      simp [splitIdx]
    · have hdur : timestamp_to_ms b.start < timestamp_to_ms b.end' := by
        rcases hcase with h | h
        · exact h
        · exact absurd h h1
      have hlen := split_timing_length b.start b.end' es.length (by omega) hdur
      refine ⟨by simp [hlen, List.enum_length], ?_⟩
      rw [List.map_map]
      show (split_timing b.start b.end' es.length).enum.map (fun p => splitIdx b p.1) =
        (List.range es.length).map (splitIdx b)
      rw [enum_map_fst_apply, hlen]
  · intro hdeg hn2
    rw [split_timing_degenerate b.start b.end' es.length hdeg]
    refine ⟨by simp, ?_⟩
    simp [splitIdx]

/-- Witness for C5 with a positive-duration record and two segments. -/
theorem C5_split_entry_count_witness :
    (mergeOne
        [{ id := some 1, en := some (.l [['a'], ['b']]), cn := some (.l [['x'], ['y']]) }]
        { index := 1, start := (r"00:00:01,000").toList, end' := (r"00:00:02,000").toList,
          text := ['h'] }).length = 2 ∧
    (mergeOne
        [{ id := some 1, en := some (.l [['a'], ['b']]), cn := some (.l [['x'], ['y']]) }]
        { index := 1, start := (r"00:00:01,000").toList, end' := (r"00:00:02,000").toList,
          text := ['h'] }).map MergedEntry.index =
      (List.range 2).map (splitIdx
        { index := 1, start := (r"00:00:01,000").toList, end' := (r"00:00:02,000").toList,
          text := ['h'] }) :=
  (C5_split_entry_count
    [{ id := some 1, en := some (.l [['a'], ['b']]), cn := some (.l [['x'], ['y']]) }]
    { index := 1, start := (r"00:00:01,000").toList, end' := (r"00:00:02,000").toList,
      text := ['h'] }
    { id := some 1, en := some (.l [['a'], ['b']]), cn := some (.l [['x'], ['y']]) }
    [['a'], ['b']] [['x'], ['y']] 2 (by decide) (by decide) (by decide)
    (by decide) (by decide) (by decide)).1 (Or.inl (by decide))

/-- Counterexample to C5 as stated: a record with a matched item whose
source and target arrays both have length 2, but whose start and end
timestamps are equal (zero duration); only one merged entry is emitted,
not two. -/
theorem C5_zero_duration_counterexample :
    ((transById
        [{ id := some 1, en := some (.l [['a'], ['b']]), cn := some (.l [['x'], ['y']]) }]
        1).map (fun it => (it.en, it.cn)) =
      some (some (.l [['a'], ['b']]), some (.l [['x'], ['y']]))) ∧
    (mergeOne
        [{ id := some 1, en := some (.l [['a'], ['b']]), cn := some (.l [['x'], ['y']]) }]
        { index := 1, start := (r"00:00:01,000").toList, end' := (r"00:00:01,000").toList,
          text := ['h'] }).length = 1 := by
  constructor
  · decide
  · decide

/-! ### C9: the accepted timing-line format -/

theorem isPySpace_of_isDigit (c : Char) (h : c.isDigit = true) : isPySpace c = false := by
  simp only [isPySpace]
  have h1 : c ≠ ' ' := by rintro rfl; simp [Char.isDigit] at h
  have h2 : c ≠ '\t' := by rintro rfl; simp [Char.isDigit] at h
  have h3 : c ≠ '\n' := by rintro rfl; simp [Char.isDigit] at h
  have h4 : c ≠ '\r' := by rintro rfl; simp [Char.isDigit] at h
  have h5 : c ≠ '\x0b' := by rintro rfl; simp [Char.isDigit] at h
  have h6 : c ≠ '\x0c' := by rintro rfl; simp [Char.isDigit] at h
  simp [h1, h2, h3, h4, h5, h6]

theorem takeWhile_digits_append (f : Str) (y : Char) (ys : Str)
    (hf : ∀ c ∈ f, c.isDigit = true) (hy : y.isDigit = false) :
    (f ++ y :: ys).takeWhile Char.isDigit = f := by
  induction f with
  | nil => simp [List.takeWhile_cons, hy]
  | cons a t ih =>
    have := hf a (by simp)
    simp only [List.cons_append, List.takeWhile_cons, this, if_true]
    rw [ih (fun c hc => hf c (by simp [hc]))]

theorem matchHourColon_spec (hh : Str) (rest : Str) (h1 : 1 ≤ hh.length)
    (h2 : hh.length ≤ 2) (hdig : ∀ c ∈ hh, c.isDigit = true) :
    matchHourColon (hh ++ ':' :: rest) = some (hh, rest) := by
  match hh, h1, h2 with
  | [a], _, _ =>
    have ha := hdig a (by simp)
    simp [matchHourColon, ha]
  | [a, b], _, _ =>
    have ha := hdig a (by simp)
    have hb := hdig b (by simp)
    simp [matchHourColon, ha, hb]

theorem matchTwoDigits_spec (mm : Str) (rest : Str) (hlen : mm.length = 2)
    (hdig : ∀ c ∈ mm, c.isDigit = true) :
    matchTwoDigits (mm ++ rest) = some (mm, rest) := by
  match mm, hlen with
  | [a, b], _ =>
    have ha := hdig a (by simp)
    have hb := hdig b (by simp)
    simp [matchTwoDigits, ha, hb]

theorem matchSepChar_spec (c : Char) (rest : Str) (h : c = ',' ∨ c = '.') :
    matchSepChar (c :: rest) = some (c, rest) := by
  simp [matchSepChar, h]

theorem matchFracMid_spec (f : Str) (y : Char) (ys : Str)
    (hf : ∀ c ∈ f, c.isDigit = true) (hy : y.isDigit = false)
    (hl1 : 1 ≤ f.length) (hl3 : f.length ≤ 3) :
    matchFracMid (f ++ y :: ys) = some (f, y :: ys) := by
  simp only [matchFracMid, takeWhile_digits_append f y ys hf hy]
  rw [if_pos ⟨hl1, hl3⟩, List.drop_left]

theorem matchFracEnd_spec (f : Str) (hf : ∀ c ∈ f, c.isDigit = true)
    (hl1 : 1 ≤ f.length) (hl3 : f.length ≤ 3) :
    matchFracEnd f = some (f, []) := by
  have ht : f.takeWhile Char.isDigit = f := List.takeWhile_eq_self_iff.mpr hf
  simp only [matchFracEnd, ht, List.take_of_length_le hl3]
  rw [if_pos hl1, List.drop_length]

theorem matchTsGroup_first_spec (hh mm ss f : Str) (sep : Char) (rest : Str)
    (hhh1 : 1 ≤ hh.length) (hhh2 : hh.length ≤ 2) (hhd : ∀ c ∈ hh, c.isDigit = true)
    (hmm : mm.length = 2) (hmd : ∀ c ∈ mm, c.isDigit = true)
    (hss : ss.length = 2) (hsd : ∀ c ∈ ss, c.isDigit = true)
    (hsep : sep = ',' ∨ sep = '.')
    (hfd : ∀ c ∈ f, c.isDigit = true) (hf1 : 1 ≤ f.length) (hf3 : f.length ≤ 3) :
    matchTsGroup false
        (hh ++ (':' :: (mm ++ (':' :: (ss ++ (sep :: (f ++ (' ' :: rest)))))))) =
      some (hh ++ (':' :: (mm ++ (':' :: (ss ++ (sep :: f))))), ' ' :: rest) := by
  have h1 := matchHourColon_spec hh
    (mm ++ (':' :: (ss ++ (sep :: (f ++ (' ' :: rest)))))) hhh1 hhh2 hhd
  have h2 := matchTwoDigits_spec mm
    (':' :: (ss ++ (sep :: (f ++ (' ' :: rest))))) hmm hmd
  have h3 := matchTwoDigits_spec ss (sep :: (f ++ (' ' :: rest))) hss hsd
  have h4 := matchSepChar_spec sep (f ++ (' ' :: rest)) hsep
  have h5 := matchFracMid_spec f ' ' rest hfd (by decide) hf1 hf3
  simp [matchTsGroup, h1, h2, h3, h4, h5, Option.some_bind, Option.map_some',
    List.append_assoc]

theorem matchTsGroup_last_spec (hh mm ss f : Str) (sep : Char)
    (hhh1 : 1 ≤ hh.length) (hhh2 : hh.length ≤ 2) (hhd : ∀ c ∈ hh, c.isDigit = true)
    (hmm : mm.length = 2) (hmd : ∀ c ∈ mm, c.isDigit = true)
    (hss : ss.length = 2) (hsd : ∀ c ∈ ss, c.isDigit = true)
    (hsep : sep = ',' ∨ sep = '.')
    (hfd : ∀ c ∈ f, c.isDigit = true) (hf1 : 1 ≤ f.length) (hf3 : f.length ≤ 3) :
    matchTsGroup true (hh ++ (':' :: (mm ++ (':' :: (ss ++ (sep :: f)))))) =
      some (hh ++ (':' :: (mm ++ (':' :: (ss ++ (sep :: f))))), []) := by
  have h1 := matchHourColon_spec hh
    (mm ++ (':' :: (ss ++ (sep :: f)))) hhh1 hhh2 hhd
  have h2 := matchTwoDigits_spec mm (':' :: (ss ++ (sep :: f))) hmm hmd
  have h3 := matchTwoDigits_spec ss (sep :: f) hss hsd
  have h4 := matchSepChar_spec sep f hsep
  have h5 := matchFracEnd_spec f hfd hf1 hf3
  simp [matchTsGroup, h1, h2, h3, h4, h5, Option.some_bind, Option.map_some',
    List.append_assoc]

theorem matchTsGroup_no_frac (hh mm ss : Str) (rest : Str)
    (hhh1 : 1 ≤ hh.length) (hhh2 : hh.length ≤ 2) (hhd : ∀ c ∈ hh, c.isDigit = true)
    (hmm : mm.length = 2) (hmd : ∀ c ∈ mm, c.isDigit = true)
    (hss : ss.length = 2) (hsd : ∀ c ∈ ss, c.isDigit = true) (last : Bool) :
    matchTsGroup last (hh ++ (':' :: (mm ++ (':' :: (ss ++ (' ' :: rest)))))) = none := by
  have h1 := matchHourColon_spec hh
    (mm ++ (':' :: (ss ++ (' ' :: rest)))) hhh1 hhh2 hhd
  have h2 := matchTwoDigits_spec mm (':' :: (ss ++ (' ' :: rest))) hmm hmd
  have h3 := matchTwoDigits_spec ss (' ' :: rest) hss hsd
  simp only [matchTsGroup, h1, Option.some_bind, h2, h3]
  simp [matchSepChar]

theorem dropWhile_space_digits (s : Str) (t : Str) (h1 : 1 ≤ s.length)
    (hd : ∀ c ∈ s, c.isDigit = true) :
    (s ++ t).dropWhile isPySpace = s ++ t := by
  match s, h1 with
  | a :: s', _ =>
    have := isPySpace_of_isDigit a (hd a (by simp))
    simp only [List.cons_append]
    exact List.dropWhile_cons_of_neg (by simp [this])

theorem matchArrow_spec (ts2 t : Str) (h1 : 1 ≤ ts2.length)
    (hd : ∀ c ∈ ts2, c.isDigit = true) :
    matchArrow (' ' :: '-' :: '-' :: '>' :: ' ' :: (ts2 ++ t)) = some (ts2 ++ t) := by
  have hdrop : List.dropWhile isPySpace (' ' :: '-' :: '-' :: '>' :: ' ' :: (ts2 ++ t))
      = '-' :: '-' :: '>' :: ' ' :: (ts2 ++ t) := by
    rw [List.dropWhile_cons_of_pos (by decide)]
    exact List.dropWhile_cons_of_neg (by decide)
  simp only [matchArrow, hdrop]
  rw [if_pos (⟨trivial, trivial, trivial⟩ : True ∧ True ∧ True)]
  rw [List.dropWhile_cons_of_pos (by decide), dropWhile_space_digits ts2 t h1 hd]

/-- A timestamp string `hh:mm:ss` followed by the separator and the
fractional digits, in the shape matched by one group of the timing
regex. -/
def tsStr (hh mm ss : Str) (sep : Char) (f : Str) : Str :=
  hh ++ (':' :: (mm ++ (':' :: (ss ++ (sep :: f)))))

/-- A full timing line `ts1 --> ts2` (single spaces around the arrow). -/
def timingLine (hh1 mm1 ss1 : Str) (sep1 : Char) (f1 hh2 mm2 ss2 : Str)
    (sep2 : Char) (f2 : Str) : Str :=
  tsStr hh1 mm1 ss1 sep1 f1 ++
    (' ' :: ('-' :: ('-' :: ('>' :: (' ' :: tsStr hh2 mm2 ss2 sep2 f2)))))

/-- C9 (amended): the timing regex accepts timestamps with either `,` or
`.` as the fractional separator and 1–3 fractional digits, and
`parse_srt_blocks` produces a record for such a block; but the
fractional part is mandatory — a timing line `HH:MM:SS --> HH:MM:SS`
without fractional seconds is not recognised and its block yields no
record. -/
theorem C9_timing_line_format (hh1 mm1 ss1 f1 hh2 mm2 ss2 f2 : Str) (sep1 sep2 : Char)
    (hh1a : 1 ≤ hh1.length) (hh1b : hh1.length ≤ 2) (hh1d : ∀ c ∈ hh1, c.isDigit = true)
    (hm1 : mm1.length = 2) (hm1d : ∀ c ∈ mm1, c.isDigit = true)
    (hs1 : ss1.length = 2) (hs1d : ∀ c ∈ ss1, c.isDigit = true)
    (hsep1 : sep1 = ',' ∨ sep1 = '.')
    (hf1d : ∀ c ∈ f1, c.isDigit = true) (hf1a : 1 ≤ f1.length) (hf1b : f1.length ≤ 3)
    (hh2a : 1 ≤ hh2.length) (hh2b : hh2.length ≤ 2) (hh2d : ∀ c ∈ hh2, c.isDigit = true)
    (hm2 : mm2.length = 2) (hm2d : ∀ c ∈ mm2, c.isDigit = true)
    (hs2 : ss2.length = 2) (hs2d : ∀ c ∈ ss2, c.isDigit = true)
    (hsep2 : sep2 = ',' ∨ sep2 = '.')
    (hf2d : ∀ c ∈ f2, c.isDigit = true) (hf2a : 1 ≤ f2.length) (hf2b : f2.length ≤ 3) :
    matchTimingLine (timingLine hh1 mm1 ss1 sep1 f1 hh2 mm2 ss2 sep2 f2)
      = some (tsStr hh1 mm1 ss1 sep1 f1, tsStr hh2 mm2 ss2 sep2 f2) ∧
    (∀ rest, matchTimingLine (hh1 ++ (':' :: (mm1 ++ (':' :: (ss1 ++ (' ' :: rest)))))) = none) ∧
    parse_srt_blocks ((r"1
00:00:01,500 --> 00:00:02.25
Hello world").toList) =
      [{ index := 1, start := (r"00:00:01,500").toList, end' := (r"00:00:02,25").toList,
         text := (r"Hello world").toList }] := by
  refine ⟨?_, ?_, by decide⟩
  · have hshape : timingLine hh1 mm1 ss1 sep1 f1 hh2 mm2 ss2 sep2 f2 =
        hh1 ++ (':' :: (mm1 ++ (':' :: (ss1 ++ (sep1 :: (f1 ++ (' ' :: ('-' :: ('-' ::
          ('>' :: (' ' :: tsStr hh2 mm2 ss2 sep2 f2))))))))))) := by
      simp [timingLine, tsStr, List.append_assoc]
    have hA := matchTsGroup_first_spec hh1 mm1 ss1 f1 sep1
      ('-' :: ('-' :: ('>' :: (' ' :: tsStr hh2 mm2 ss2 sep2 f2))))
      hh1a hh1b hh1d hm1 hm1d hs1 hs1d hsep1 hf1d hf1a hf1b
    have hB := matchArrow_spec hh2 (':' :: (mm2 ++ (':' :: (ss2 ++ (sep2 :: f2))))) hh2a hh2d
    have hC := matchTsGroup_last_spec hh2 mm2 ss2 f2 sep2
      hh2a hh2b hh2d hm2 hm2d hs2 hs2d hsep2 hf2d hf2a hf2b
    rw [hshape]
    simp only [tsStr] at hA hB hC ⊢
    simp only [matchTimingLine, hA, Option.some_bind, hB, hC, Option.map_some']
  · intro rest
    have hA := matchTsGroup_no_frac hh1 mm1 ss1 rest
      hh1a hh1b hh1d hm1 hm1d hs1 hs1d false
    simp [matchTimingLine, hA]

/-- Witness for C9 (amended) at `01:02:03,5 --> 01:02:03.999`. -/
theorem C9_timing_line_format_witness :
    matchTimingLine ((r"01:02:03,5 --> 01:02:03.999").toList) =
      some ((r"01:02:03,5").toList, (r"01:02:03.999").toList) := by
  have h := (C9_timing_line_format ['0', '1'] ['0', '2'] ['0', '3'] ['5']
      ['0', '1'] ['0', '2'] ['0', '3'] ['9', '9', '9'] ',' '.'
      (by decide) (by decide) (by decide) (by decide) (by decide) (by decide) (by decide)
      (by decide) (by decide) (by decide) (by decide) (by decide) (by decide) (by decide)
      (by decide) (by decide) (by decide) (by decide) (by decide) (by decide) (by decide)
      (by decide)).1
  exact h

/-- Counterexample to C9 as stated: a block whose timing line carries
timestamps without fractional seconds is not recognised — the parse of
the whole file yields no record at all. -/
theorem C9_no_fraction_counterexample :
    parse_srt_blocks ((r"1
00:00:00 --> 00:00:05
Hello").toList) = [] := by
  decide

/-! ### C4: what `process_chunk` can return -/

theorem process_chunkAux_sound (expected : Nat) (oracle : Nat → ApiResp) :
    ∀ (sched : List (Nat × Nat)) (le : Option Bool) (calls : Nat) (d : List TransItem),
      (process_chunkAux expected oracle sched le calls).result = some d →
      d.length = expected ∧ ∃ i, oracle i = .subs d := by
  intro sched
  induction sched with
  | nil =>
    intro le calls d h
    simp [process_chunkAux] at h
  | cons p rest ih =>
    intro le calls d h
    obtain ⟨attempt, wait⟩ := p
    cases horc : oracle attempt with
    | exn rl =>
      simp only [process_chunkAux, horc] at h
      exact ih _ _ _ h
    | notList =>
      simp only [process_chunkAux, horc] at h
      exact ih _ _ _ h
    | subs data =>
      simp only [process_chunkAux, horc] at h
      by_cases hlen : data.length ≠ expected
      · rw [if_pos hlen] at h
        exact ih _ _ _ h
      · rw [if_neg hlen] at h
        have hd : some data = some d := h
        cases hd
        exact ⟨by omega, attempt, horc⟩

/-- C4 (amended): `process_chunk` returns non-`None` only when the
decoded response is a list whose length equals the input chunk's record
count; wrong count and unparseable structure are retried and never
returned.  The returned list is the decoded response verbatim — in
particular, the id-set is **not** validated (see the counterexample). -/
theorem C4_process_chunk_validation (oracle : Str → Nat → ApiResp)
    (chunk_blocks : List Block) (model : Str) (d : List TransItem)
    (h : (process_chunk oracle chunk_blocks model).result = some d) :
    d.length = chunk_blocks.length ∧ ∃ i, oracle model i = .subs d :=
  process_chunkAux_sound chunk_blocks.length (oracle model) BACKOFF_SCHEDULE.enum none 0 d h

/-- Witness for C4 on a one-record chunk with a well-formed response. -/
theorem C4_process_chunk_validation_witness :
    ([{ id := some 1 }] : List TransItem).length =
        ([{ index := 1, start := [], end' := [], text := [] }] : List Block).length ∧
    ∃ i, (fun (_ : Str) (_ : Nat) => ApiResp.subs [{ id := some 1 }]) DEFAULT_MODEL i =
      ApiResp.subs [{ id := some 1 }] :=
  C4_process_chunk_validation (fun _ _ => ApiResp.subs [{ id := some 1 }])
    [{ index := 1, start := [], end' := [], text := [] }] DEFAULT_MODEL
    [{ id := some 1 }] (by decide)

/-- Counterexample to C4 as stated: a response whose length matches but
whose single id (999) differs from the chunk's record id (1) is returned
to the caller, not treated as a failure — the id-set is not checked. -/
theorem C4_wrong_id_counterexample :
    (process_chunk (fun _ _ => ApiResp.subs [{ id := some 999 }])
        [{ index := 1, start := [], end' := [], text := [] }] DEFAULT_MODEL).result =
      some [{ id := some 999 }] ∧ (999 : Int) ≠ 1 := by
  constructor
  · decide
  · decide

/-! ### C3: the model fallback -/

theorem process_chunkAux_calls (expected : Nat) (oracle : Nat → ApiResp) :
    ∀ (sched : List (Nat × Nat)) (le : Option Bool) (calls : Nat),
      (process_chunkAux expected oracle sched le calls).result = none →
      (process_chunkAux expected oracle sched le calls).calls = calls + sched.length := by
  intro sched
  induction sched with
  | nil => intro le calls _; simp [process_chunkAux]
  | cons p rest ih =>
    intro le calls h
    obtain ⟨attempt, wait⟩ := p
    cases horc : oracle attempt with
    | exn rl =>
      simp only [process_chunkAux, horc] at h ⊢
      rw [ih _ _ h]
      simp only [List.length_cons]
      omega
    | notList =>
      simp only [process_chunkAux, horc] at h ⊢
      rw [ih _ _ h]
      simp only [List.length_cons]
      omega
    | subs data =>
      simp only [process_chunkAux, horc] at h ⊢
      by_cases hlen : data.length ≠ expected
      · rw [if_pos hlen] at h ⊢
        rw [ih _ _ h]
        simp only [List.length_cons]
        omega
      · rw [if_neg hlen] at h
        simp at h

/-- An exhausted `process_chunk` run performed one remote attempt per
entry of `BACKOFF_SCHEDULE` (five attempts with backoff sleeps). -/
theorem process_chunk_calls_of_none (oracle : Str → Nat → ApiResp)
    (chunk_blocks : List Block) (model : Str)
    (h : (process_chunk oracle chunk_blocks model).result = none) :
    (process_chunk oracle chunk_blocks model).calls = BACKOFF_SCHEDULE.length := by
  have := process_chunkAux_calls chunk_blocks.length (oracle model)
    BACKOFF_SCHEDULE.enum none 0 h
  simpa [List.enum_length] using this

/-- C3 (amended): when the primary `process_chunk` run is exhausted and
the configured model is not already `FALLBACK_MODEL`, the orchestrator
invokes `process_chunk` exactly once more, under `FALLBACK_MODEL`, and
uses its result — this extra invocation is a full retry cycle of its own
(up to `BACKOFF_SCHEDULE.length = 5` remote attempts), not a single
extra remote attempt; no fallback invocation is made when the primary
model already is the fallback model, or when the primary run
succeeded. -/
theorem C3_model_fallback (oracle : Str → Nat → ApiResp) (chunk_blocks : List Block)
    (model : Str) :
    ((process_chunk oracle chunk_blocks model).result = none → model ≠ FALLBACK_MODEL →
      (chunkWithFallback oracle chunk_blocks model).fallback =
          some (process_chunk oracle chunk_blocks FALLBACK_MODEL) ∧
      (chunkWithFallback oracle chunk_blocks model).result =
          (process_chunk oracle chunk_blocks FALLBACK_MODEL).result ∧
      ((process_chunk oracle chunk_blocks FALLBACK_MODEL).result = none →
        (process_chunk oracle chunk_blocks FALLBACK_MODEL).calls =
          BACKOFF_SCHEDULE.length)) ∧
    (model = FALLBACK_MODEL →
      (chunkWithFallback oracle chunk_blocks model).fallback = none) ∧
    ((process_chunk oracle chunk_blocks model).result ≠ none →
      (chunkWithFallback oracle chunk_blocks model).fallback = none) := by
  refine ⟨fun hnone hne => ?_, fun heq => ?_, fun hsome => ?_⟩
  · rw [chunkWithFallback, if_pos ⟨hnone, hne⟩]
    exact ⟨rfl, rfl, process_chunk_calls_of_none oracle chunk_blocks FALLBACK_MODEL⟩
  · rw [chunkWithFallback, if_neg (by simp [heq])]
  · rw [chunkWithFallback, if_neg (by simp [hsome])]

/-- Witness for C3 with a primary model distinct from the fallback model
and an oracle that always fails under the primary model but succeeds
immediately under the fallback model. -/
theorem C3_model_fallback_witness :
    (chunkWithFallback
        (fun m _ => if m = FALLBACK_MODEL then ApiResp.subs [{ id := some 1 }]
          else ApiResp.exn false)
        [{ index := 1, start := [], end' := [], text := [] }] DEFAULT_MODEL).fallback =
      some (process_chunk
        (fun m _ => if m = FALLBACK_MODEL then ApiResp.subs [{ id := some 1 }]
          else ApiResp.exn false)
        [{ index := 1, start := [], end' := [], text := [] }] FALLBACK_MODEL) :=
  ((C3_model_fallback
      (fun m _ => if m = FALLBACK_MODEL then ApiResp.subs [{ id := some 1 }]
        else ApiResp.exn false)
      [{ index := 1, start := [], end' := [], text := [] }] DEFAULT_MODEL).1
    (by decide) (by decide)).1

/-- Counterexample to C3 as stated: with every remote attempt failing,
the single fallback `process_chunk` invocation performs five remote
attempts — a full backoff cycle, not "a single extra remote attempt". -/
theorem C3_full_cycle_counterexample :
    ((chunkWithFallback (fun _ _ => ApiResp.exn false)
        [{ index := 1, start := [], end' := [], text := [] }] DEFAULT_MODEL).fallback.map
      PCOut.calls) = some 5 := by
  decide

/-! ### C7: chunk-size invalidation preserves cached keywords -/

/-- C7: when the stored chunk size is present and differs from the
configured one, the resume step resets the completed-chunk set and the
accumulated item list to empty, while the cached terminology string is
left unchanged and becomes the `video_keywords` actually used (stated
with no manual keywords supplied, as the claim is about the cached
string). -/
theorem C7_chunk_size_reset (loaded : LoadedCheckpoint) (chunk_size total_chunks : Nat)
    (extracted : Str) (k : Str) (s : Nat)
    (hs : loaded.saved_chunk_size = some s) (hne : s ≠ chunk_size)
    (hk : loaded.cached_keywords = some k) :
    (resumeState loaded chunk_size total_chunks extracted []).1 = [] ∧
    (resumeState loaded chunk_size total_chunks extracted []).2.1 = [] ∧
    (resumeState loaded chunk_size total_chunks extracted []).2.2 = k := by
  have hcond : loaded.saved_chunk_size.isSome ∧ loaded.saved_chunk_size ≠ some chunk_size := by
    rw [hs]
    simp [hne]
  simp only [resumeState, if_pos hcond, hk, Option.getD_some]
  refine ⟨?_, ?_, ?_⟩
  · split <;> rfl
  · split <;> rfl
  · simp

/-- Witness for C7: stored chunk size 150, configured 30. -/
theorem C7_chunk_size_reset_witness :
    (resumeState ⟨[0, 1], [{ id := some 7 }], 5, some ['k', 'w'], some 150⟩
        30 11 ['e'] []).1 = [] ∧
    (resumeState ⟨[0, 1], [{ id := some 7 }], 5, some ['k', 'w'], some 150⟩
        30 11 ['e'] []).2.1 = [] ∧
    (resumeState ⟨[0, 1], [{ id := some 7 }], 5, some ['k', 'w'], some 150⟩
        30 11 ['e'] []).2.2 = ['k', 'w'] :=
  C7_chunk_size_reset ⟨[0, 1], [{ id := some 7 }], 5, some ['k', 'w'], some 150⟩
    30 11 ['e'] ['k', 'w'] 150 rfl (by decide) rfl

/-! ### C8: global error budget and adaptive delay -/

theorem loopStep_bounds (tc idx : Nat) (res : Option (List TransItem)) (st : LoopState)
    (h1 : MIN_CHUNK_DELAY ≤ st.current_delay) (h2 : st.current_delay ≤ MAX_CHUNK_DELAY) :
    MIN_CHUNK_DELAY ≤ (loopStep tc idx res st).1.current_delay ∧
    (loopStep tc idx res st).1.current_delay ≤ MAX_CHUNK_DELAY ∧
    (∀ d, Ev.chunkSleep d ∈ (loopStep tc idx res st).2 →
      MIN_CHUNK_DELAY ≤ d ∧ d ≤ MAX_CHUNK_DELAY) := by
  simp only [MIN_CHUNK_DELAY, MAX_CHUNK_DELAY] at h1 h2 ⊢
  by_cases hc : idx ∈ st.completed
  · simp only [loopStep, if_pos hc]
    refine ⟨h1, h2, ?_⟩
    intro d hd
    simp at hd
  · simp only [loopStep, if_neg hc]
    by_cases ht : res.getD [] ≠ []
    · simp only [if_pos ht]
      constructor
      · simp [MIN_CHUNK_DELAY]
      constructor
      · simp [MIN_CHUNK_DELAY, MAX_CHUNK_DELAY]
      · intro d hd
        simp only [List.nil_append] at hd
        split at hd <;> simp_all [MIN_CHUNK_DELAY, MAX_CHUNK_DELAY]
    · simp only [if_neg ht]
      by_cases hf : st.consecutive_failures + 1 ≥ CONSECUTIVE_FAIL_LIMIT
      · simp only [if_pos hf]
        constructor
        · simp [MIN_CHUNK_DELAY]
        constructor
        · simp [MIN_CHUNK_DELAY, MAX_CHUNK_DELAY]
        · intro d hd
          simp only [List.mem_append, List.mem_singleton] at hd
          rcases hd with hd | hd
          · simp at hd
          · split at hd <;> simp_all [MIN_CHUNK_DELAY, MAX_CHUNK_DELAY]
      · simp only [if_neg hf]
        refine ⟨?_, ?_, ?_⟩
        · show 2 ≤ min (st.current_delay * 2) MAX_CHUNK_DELAY
          simp only [MAX_CHUNK_DELAY]
          omega
        · show min (st.current_delay * 2) MAX_CHUNK_DELAY ≤ 30
          simp only [MAX_CHUNK_DELAY]
          omega
        · intro d hd
          simp only [List.nil_append] at hd
          split at hd
          all_goals simp_all [MIN_CHUNK_DELAY, MAX_CHUNK_DELAY]
          all_goals omega

theorem runLoop_delay_bounds (tc : Nat) (outcomes : Nat → Option (List TransItem)) :
    ∀ (idxs : List Nat) (st : LoopState),
      MIN_CHUNK_DELAY ≤ st.current_delay → st.current_delay ≤ MAX_CHUNK_DELAY →
      (MIN_CHUNK_DELAY ≤ (runLoop tc outcomes idxs st).1.current_delay ∧
       (runLoop tc outcomes idxs st).1.current_delay ≤ MAX_CHUNK_DELAY ∧
       (∀ d, Ev.chunkSleep d ∈ (runLoop tc outcomes idxs st).2 →
         MIN_CHUNK_DELAY ≤ d ∧ d ≤ MAX_CHUNK_DELAY)) := by
  intro idxs
  induction idxs with
  | nil =>
    intro st h1 h2
    refine ⟨h1, h2, ?_⟩
    intro d hd
    simp [runLoop] at hd
  | cons idx rest ih =>
    intro st h1 h2
    have hstep := loopStep_bounds tc idx (outcomes idx) st h1 h2
    have hrest := ih (loopStep tc idx (outcomes idx) st).1 hstep.1 hstep.2.1
    refine ⟨hrest.1, hrest.2.1, ?_⟩
    intro d hd
    simp only [runLoop, List.mem_append] at hd
    rcases hd with hd | hd
    · exact hstep.2.2 d hd
    · exact hrest.2.2 d hd

/-- C8: in the chunk loop, a failure that brings the consecutive-failure
counter to the threshold triggers exactly one global pause and
immediately resets the counter to zero and the delay to its minimum; a
failure below the threshold pauses nothing, increments the counter and
doubles the delay capped at the maximum; a success resets both; and
starting from a delay within `[MIN_CHUNK_DELAY, MAX_CHUNK_DELAY]` the
adaptive delay — including every inter-chunk sleep actually performed —
stays within those bounds for the whole run. -/
theorem C8_error_budget (tc idx : Nat) (res : Option (List TransItem)) (st : LoopState)
    (outcomes : Nat → Option (List TransItem)) (idxs : List Nat) (st0 : LoopState) :
    (idx ∉ st.completed → res.getD [] = [] →
      st.consecutive_failures + 1 ≥ CONSECUTIVE_FAIL_LIMIT →
      ((loopStep tc idx res st).2.filter (· = Ev.globalPause)).length = 1 ∧
      (loopStep tc idx res st).1.consecutive_failures = 0 ∧
      (loopStep tc idx res st).1.current_delay = MIN_CHUNK_DELAY) ∧
    (idx ∉ st.completed → res.getD [] = [] →
      st.consecutive_failures + 1 < CONSECUTIVE_FAIL_LIMIT →
      ((loopStep tc idx res st).2.filter (· = Ev.globalPause)).length = 0 ∧
      (loopStep tc idx res st).1.consecutive_failures = st.consecutive_failures + 1 ∧
      (loopStep tc idx res st).1.current_delay =
        min (st.current_delay * 2) MAX_CHUNK_DELAY) ∧
    (idx ∉ st.completed → res.getD [] ≠ [] →
      ((loopStep tc idx res st).2.filter (· = Ev.globalPause)).length = 0 ∧
      (loopStep tc idx res st).1.consecutive_failures = 0 ∧
      (loopStep tc idx res st).1.current_delay = MIN_CHUNK_DELAY) ∧
    (MIN_CHUNK_DELAY ≤ st0.current_delay → st0.current_delay ≤ MAX_CHUNK_DELAY →
      MIN_CHUNK_DELAY ≤ (runLoop tc outcomes idxs st0).1.current_delay ∧
      (runLoop tc outcomes idxs st0).1.current_delay ≤ MAX_CHUNK_DELAY ∧
      (∀ d, Ev.chunkSleep d ∈ (runLoop tc outcomes idxs st0).2 →
        MIN_CHUNK_DELAY ≤ d ∧ d ≤ MAX_CHUNK_DELAY)) := by
  refine ⟨?_, ?_, ?_, fun h1 h2 => runLoop_delay_bounds tc outcomes idxs st0 h1 h2⟩
  · intro hc hres hf
    simp only [loopStep, if_neg hc, if_neg (by simp [hres] : ¬res.getD [] ≠ []), if_pos hf]
    refine ⟨by split <;> rfl, by simp, by simp⟩
  · intro hc hres hf
    simp only [loopStep, if_neg hc, if_neg (by simp [hres] : ¬res.getD [] ≠ []),
      if_neg (by omega : ¬st.consecutive_failures + 1 ≥ CONSECUTIVE_FAIL_LIMIT)]
    refine ⟨by split <;> rfl, by simp, by simp⟩
  · intro hc hres
    simp only [loopStep, if_neg hc, if_pos hres]
    refine ⟨by split <;> rfl, by simp, by simp⟩

/-- Witness for C8: a third consecutive failure at the threshold on chunk
0 of 3, plus a run over three chunks starting from the minimum delay. -/
theorem C8_error_budget_witness :
    (((loopStep 3 0 none ⟨[], [], 8, 2⟩).2.filter (· = Ev.globalPause)).length = 1 ∧
      (loopStep 3 0 none ⟨[], [], 8, 2⟩).1.consecutive_failures = 0 ∧
      (loopStep 3 0 none ⟨[], [], 8, 2⟩).1.current_delay = MIN_CHUNK_DELAY) ∧
    (MIN_CHUNK_DELAY ≤ (runLoop 3 (fun _ => none) [0, 1, 2] ⟨[], [], 2, 0⟩).1.current_delay ∧
      (runLoop 3 (fun _ => none) [0, 1, 2] ⟨[], [], 2, 0⟩).1.current_delay ≤ MAX_CHUNK_DELAY ∧
      (∀ d, Ev.chunkSleep d ∈ (runLoop 3 (fun _ => none) [0, 1, 2] ⟨[], [], 2, 0⟩).2 →
        MIN_CHUNK_DELAY ≤ d ∧ d ≤ MAX_CHUNK_DELAY)) :=
  ⟨(C8_error_budget 3 0 none ⟨[], [], 8, 2⟩ (fun _ => none) [0, 1, 2] ⟨[], [], 2, 0⟩).1
      (by decide) rfl (by decide),
   (C8_error_budget 3 0 none ⟨[], [], 8, 2⟩ (fun _ => none) [0, 1, 2] ⟨[], [], 2, 0⟩).2.2.2
      (by decide) (by decide)⟩

end BSG
